import Mathlib

/-!
A verification development for the numeric/formatting helpers and async
control utilities of a Lightning wallet UI (`src/helper.js`).

JavaScript numbers are modelled as exact rationals (`ℚ`), with the special
values `NaN`, `Infinity` and `-Infinity` made explicit through the `JsNum`
type.  Strings are modelled as Lean `String`/`List Char`.  The
locale-sensitive `Intl.NumberFormat` rendering is modelled for the `en-US`
host locale (the repository formats raw numeric strings with an explicit
`en-US` locale and display strings with the default locale), with the
default ES2023 rounding mode `halfExpand` (round half away from zero).
-/

attribute [local semireducible] Rat.add Rat.mul Rat.inv Rat.sub

namespace Helper

/-! ## Decimal digit characters -/

/-- The decimal digit character for a digit value (values ≥ 9 clamp to `'9'`;
they never arise for digits produced by `natDigits`). -/
def digitChar : ℕ → Char
  | 0 => '0'
  | 1 => '1'
  | 2 => '2'
  | 3 => '3'
  | 4 => '4'
  | 5 => '5'
  | 6 => '6'
  | 7 => '7'
  | 8 => '8'
  | _ => '9'

/-- Numeric value of a decimal digit character. -/
def charDigit (c : Char) : ℕ := c.toNat - 48

/-- Character class `[0-9]` of the regular expressions in `helper.js`. -/
def isDigitC (c : Char) : Bool := decide (48 ≤ c.toNat) && decide (c.toNat ≤ 57)

/-! ## Big-endian decimal digit lists -/

/-- Little-endian decimal digits of a natural number, with explicit fuel so
that the definition is structurally recursive and kernel-reducible. -/
def natDigitsAux : ℕ → ℕ → List ℕ
  | _, 0 => []
  | 0, _ => []
  | fuel + 1, n => n % 10 :: natDigitsAux fuel (n / 10)

/-- Little-endian decimal digits of a natural number (`natDigits 0 = []`). -/
def natDigits (n : ℕ) : List ℕ := natDigitsAux n n

/-- Value of a little-endian digit list. -/
def ofDigits : List ℕ → ℕ
  | [] => 0
  | d :: r => d + 10 * ofDigits r

/-! ## Reading digit strings back as numbers -/

/-- The fold `charsToNatAux acc l` turns decimal digit characters into a number,
exactly the way a left-to-right decimal parse accumulates. -/
def charsToNatAux (acc : ℕ) : List Char → ℕ
  | [] => acc
  | c :: r => charsToNatAux (10 * acc + charDigit c) r

/-- Numeric value of a big-endian string of decimal digit characters. -/
def charsToNat (l : List Char) : ℕ := charsToNatAux 0 l

/-- Big-endian decimal digit characters of a natural number (empty for 0). -/
def digBE (n : ℕ) : List Char := ((natDigits n).reverse).map digitChar

/-! ## JavaScript number values

JavaScript numbers are modelled as exact rationals together with the special
values `NaN`, `Infinity` and `-Infinity`. -/

/-- A JavaScript number: a finite (exact rational) value, an infinity, or NaN. -/
inductive JsNum : Type where
  | fin (q : ℚ)
  | inf
  | ninf
  | nan
deriving DecidableEq

/-- JavaScript unary minus. -/
def JsNum.neg : JsNum → JsNum
  | .fin q => .fin (-q)
  | .inf => .ninf
  | .ninf => .inf
  | .nan => .nan

/-- JavaScript multiplication (`*`), with IEEE special-value behavior. -/
def JsNum.mul : JsNum → JsNum → JsNum
  | .nan, _ => .nan
  | _, .nan => .nan
  | .fin a, .fin b => .fin (a * b)
  | .fin a, .inf => if a = 0 then .nan else if 0 < a then .inf else .ninf
  | .fin a, .ninf => if a = 0 then .nan else if 0 < a then .ninf else .inf
  | .inf, .fin b => if b = 0 then .nan else if 0 < b then .inf else .ninf
  | .ninf, .fin b => if b = 0 then .nan else if 0 < b then .ninf else .inf
  | .inf, .inf => .inf
  | .inf, .ninf => .ninf
  | .ninf, .inf => .ninf
  | .ninf, .ninf => .inf

/-- JavaScript division (`/`), with division-by-zero producing an infinity
(or NaN for `0 / 0`) as in IEEE arithmetic over the unsigned rational zero. -/
def JsNum.div : JsNum → JsNum → JsNum
  | .nan, _ => .nan
  | _, .nan => .nan
  | .fin a, .fin b =>
      if b = 0 then (if a = 0 then .nan else if 0 < a then .inf else .ninf)
      else .fin (a / b)
  | .fin _, .inf => .fin 0
  | .fin _, .ninf => .fin 0
  | .inf, .fin b => if 0 ≤ b then .inf else .ninf
  | .ninf, .fin b => if 0 ≤ b then .ninf else .inf
  | .inf, .inf => .nan
  | .inf, .ninf => .nan
  | .ninf, .inf => .nan
  | .ninf, .ninf => .nan

/-- JavaScript comparison `n < q` against a rational constant
(false whenever `n` is NaN). -/
def JsNum.ltQ : JsNum → ℚ → Bool
  | .fin a, q => decide (a < q)
  | .inf, _ => false
  | .ninf, _ => true
  | .nan, _ => false

/-- JavaScript comparison `n > q` against a rational constant
(false whenever `n` is NaN). -/
def JsNum.gtQ : JsNum → ℚ → Bool
  | .fin a, q => decide (q < a)
  | .inf, _ => true
  | .ninf, _ => false
  | .nan, _ => false

/-- JavaScript `Math.abs`. -/
def JsNum.abs : JsNum → JsNum
  | .fin a => .fin |a|
  | .inf => .inf
  | .ninf => .inf
  | .nan => .nan

/-- JavaScript `Math.round`: round half toward positive infinity. -/
def jsRound (q : ℚ) : ℤ := ⌊q + 1 / 2⌋

/-- The function `Math.round` lifted to JavaScript numbers (the identity on NaN and the
infinities, as in JavaScript). -/
def jsRoundNum : JsNum → JsNum
  | .fin q => .fin ((jsRound q : ℤ) : ℚ)
  | .inf => .inf
  | .ninf => .ninf
  | .nan => .nan

/-! ## The `Number(string)` coercion -/

/-- JavaScript string whitespace recognized by `Number()`. -/
def isWs (c : Char) : Bool :=
  decide (c.toNat = 32) || (decide (9 ≤ c.toNat) && decide (c.toNat ≤ 13)) ||
    decide (c.toNat = 160) || decide (c.toNat = 65279)

/-- Strip leading and trailing whitespace. -/
def trimWs (l : List Char) : List Char :=
  ((l.dropWhile isWs).reverse.dropWhile isWs).reverse

/-- The value of a fractional-plus-integer digit string pair. -/
def decValue (ipart fpart : List Char) : ℚ :=
  (charsToNat ipart : ℚ) + (charsToNat fpart : ℚ) / 10 ^ fpart.length

/-- Exponent digits of a numeric literal: applies `× 10^e` or `÷ 10^e`. -/
def expDig (q : ℚ) (negE : Bool) (d : List Char) : JsNum :=
  if !d.isEmpty && d.all isDigitC then
    if negE then .fin (q / 10 ^ charsToNat d) else .fin (q * 10 ^ charsToNat d)
  else .nan

/-- The optionally signed exponent part of a numeric literal. -/
def parseExp (q : ℚ) : List Char → JsNum
  | [] => expDig q false []
  | c :: d =>
      if c = '+' then expDig q false d
      else if c = '-' then expDig q true d
      else expDig q false (c :: d)

/-- An unsigned decimal literal: digits, an optional dot with more digits,
and an optional exponent; at least one digit must be present. -/
def parseDecimal (l : List Char) : JsNum :=
  let ipart := l.takeWhile isDigitC
  match l.dropWhile isDigitC with
  | [] => if ipart.isEmpty then .nan else .fin ((charsToNat ipart : ℚ))
  | c :: r2 =>
      if c = '.' then
        let fpart := r2.takeWhile isDigitC
        if ipart.isEmpty && fpart.isEmpty then .nan
        else
          match r2.dropWhile isDigitC with
          | [] => .fin (decValue ipart fpart)
          | c2 :: r4 =>
              if c2 = 'e' ∨ c2 = 'E' then parseExp (decValue ipart fpart) r4
              else .nan
      else if c = 'e' ∨ c = 'E' then
        if ipart.isEmpty then .nan else parseExp ((charsToNat ipart : ℚ)) r2
      else .nan

/-- Hexadecimal digit value (17 for characters that are no hex digit). -/
def charHexVal (c : Char) : ℕ :=
  if isDigitC c then c.toNat - 48
  else if 97 ≤ c.toNat ∧ c.toNat ≤ 102 then c.toNat - 87
  else if 65 ≤ c.toNat ∧ c.toNat ≤ 70 then c.toNat - 55
  else 17

/-- Digits of a `0x`/`0o`/`0b` literal for base `b ≤ 16`. -/
def isRadixDigit (b : ℕ) (c : Char) : Bool := decide (charHexVal c < b)

/-- Value of a non-decimal (hex, octal, binary) digit string. -/
def radixVal (b : ℕ) (l : List Char) : ℕ :=
  l.foldl (fun acc c => b * acc + charHexVal c) 0

/-- A `0x`/`0o`/`0b` integer literal body. -/
def parseRadix (b : ℕ) (r : List Char) : JsNum :=
  if !r.isEmpty && r.all (isRadixDigit b) then .fin ((radixVal b r : ℚ)) else .nan

/-- The character list of the literal `Infinity`. -/
def infinityChars : List Char := ['I', 'n', 'f', 'i', 'n', 'i', 't', 'y']

/-- An unsigned numeric literal: `Infinity` or an unsigned decimal literal. -/
def parseUnsigned (t : List Char) : JsNum :=
  if t = infinityChars then .inf else parseDecimal t

/-- An unsigned literal that may also be a hex/octal/binary integer literal
(those take no sign in JavaScript). -/
def parseUnsignedOrRadix (t : List Char) : JsNum :=
  if t.take 2 = ['0', 'x'] ∨ t.take 2 = ['0', 'X'] then parseRadix 16 (t.drop 2)
  else if t.take 2 = ['0', 'o'] ∨ t.take 2 = ['0', 'O'] then parseRadix 8 (t.drop 2)
  else if t.take 2 = ['0', 'b'] ∨ t.take 2 = ['0', 'B'] then parseRadix 2 (t.drop 2)
  else parseUnsigned t

/-- JavaScript `Number()` applied to the characters of a string: trim
whitespace, an empty remainder is 0, handle an optional sign, otherwise
parse an unsigned (possibly non-decimal) literal. Anything else is NaN. -/
def jsCharsToNum (l : List Char) : JsNum :=
  match trimWs l with
  | [] => .fin 0
  | c :: r =>
      if c = '+' then parseUnsigned r
      else if c = '-' then (parseUnsigned r).neg
      else parseUnsignedOrRadix (c :: r)

/-- JavaScript `Number()` applied to a string. -/
def jsStrToNum (s : String) : JsNum := jsCharsToNum s.data

/-- A JavaScript value passed to the numeric helpers: a number or a string. -/
inductive JsVal : Type where
  | num (n : JsNum)
  | str (s : String)

/-- JavaScript `Number(val)` on a number-or-string value. -/
def jsToNumber : JsVal → JsNum
  | .num n => n
  | .str s => jsStrToNum s

/-- The regular expression `^[0-9]*[.]?[0-9]*$` of `toSatoshis`:
digits, at most one dot, digits; all parts may be empty. -/
def decPattern (l : List Char) : Bool :=
  match l.dropWhile isDigitC with
  | [] => true
  | c :: r2 => c == '.' && r2.all isDigitC

/-! ## `Intl.NumberFormat` rendering (en-US model) -/

/-- Left-pad a digit string with zeros to length `k`. -/
def padZeros (k : ℕ) (l : List Char) : List Char :=
  List.replicate (k - l.length) '0' ++ l

/-- Remove trailing zeros, but keep at least `minKeep` characters
(re-padding with zeros if fewer than `minKeep` remain). -/
def trimTrail (minKeep : ℕ) (l : List Char) : List Char :=
  let r := l.reverse.dropWhile (fun c => c == '0')
  (List.replicate (minKeep - r.length) '0' ++ r).reverse

/-- Decimal digit characters of a natural number, rendering 0 as `"0"`. -/
def intChars (n : ℕ) : List Char := if n = 0 then ['0'] else digBE n

/-- Insert `','` after every third character, walking a reversed digit
string from the least significant digit. -/
def groupRev : List Char → ℕ → List Char
  | [], _ => []
  | c :: r, i => (if i ≠ 0 ∧ i % 3 = 0 then [',', c] else [c]) ++ groupRev r (i + 1)

/-- en-US grouping: `','` between every three digits from the right. -/
def groupChars (l : List Char) : List Char := (groupRev l.reverse 0).reverse

/-- The `Intl.NumberFormat` fixed-fraction rendering of a nonnegative rational:
round half away from zero to `maxFrac` fractional digits, then drop
trailing zeros down to `minFrac` digits; no decimal point when no
fractional digit remains. -/
def formatFixedNN (group : Bool) (q : ℚ) (minFrac maxFrac : ℕ) : List Char :=
  let n : ℕ := (⌊q * 10 ^ maxFrac + 1 / 2⌋).toNat
  let ip := n / 10 ^ maxFrac
  let fp := n % 10 ^ maxFrac
  let ipChars := if group then groupChars (intChars ip) else intChars ip
  let fChars := trimTrail minFrac (padZeros maxFrac (digBE fp))
  ipChars ++ (if fChars.isEmpty then [] else '.' :: fChars)

/-- Signed fixed-fraction rendering: a `'-'` sign followed by the rendering
of the magnitude, as `Intl.NumberFormat` does. -/
def formatFixed (group : Bool) (q : ℚ) (minFrac maxFrac : ℕ) : List Char :=
  if q < 0 then '-' :: formatFixedNN group (-q) minFrac maxFrac
  else formatFixedNN group q minFrac maxFrac

/-- Decimal rendering of a JavaScript number (`∞`, `-∞` and `NaN` render as
`Intl.NumberFormat` renders them). -/
def renderJsNum (group : Bool) (minFrac maxFrac : ℕ) : JsNum → List Char
  | .fin q => formatFixed group q minFrac maxFrac
  | .inf => ['∞']
  | .ninf => ['-', '∞']
  | .nan => ['N', 'a', 'N']

/-- Does `l` start with `pat`? -/
def startsWithPat : List Char → List Char → Bool
  | _, [] => true
  | [], _ :: _ => false
  | a :: as, b :: bs => a == b && startsWithPat as bs

/-- Does `pat` occur as a contiguous substring of `l`? -/
def containsPat : List Char → List Char → Bool
  | [], pat => pat.isEmpty
  | c :: rest, pat => startsWithPat (c :: rest) pat || containsPat rest pat

/-- The test of the regular expression `/0[,.]0{2}/` in `formatFiat`. -/
def test00 (l : List Char) : Bool :=
  containsPat l ['0', '.', '0', '0'] || containsPat l ['0', ',', '0', '0']

/-- The string key of the US dollar. -/
def usdStr : String := "usd"

/-- Currency symbol of the host `Intl` implementation in the en-US locale:
`$` for `usd`, the upper-cased code followed by a space otherwise. -/
def currencySymbol (c : String) : List Char :=
  if c = usdStr then ['$'] else c.toUpper.data ++ [' ']

/-- en-US currency rendering with two fractional digits (the convention of
`usd` and the other claims' currencies): sign, symbol, grouped magnitude. -/
def intlCurrency (currency : String) : JsNum → List Char
  | .fin q => (if q < 0 then ['-'] else []) ++ currencySymbol currency ++
      formatFixedNN true |q| 2 2
  | .inf => currencySymbol currency ++ ['∞']
  | .ninf => '-' :: (currencySymbol currency ++ ['∞'])
  | .nan => currencySymbol currency ++ ['N', 'a', 'N']

/-! ## Data model -/

/-- The two error kinds raised by the conversion helpers: the explicit
`throw new Error('Invalid input!')`, and the implicit TypeError of a
property access on `undefined`. -/
inductive JsErr : Type where
  | invalidInput
  | typeError
deriving DecidableEq

/-- The string key of the `btc` unit. -/
def btcStr : String := "btc"

/-- Satoshis per BTC. -/
def btcDenominator : ℕ := 100000000

/-- Modelled from the spec: the `UNITS` table lives in `src/config.js`,
which is not among the sources; the spec specifies a mapping from unit key
to an integer denominator that must contain at least a `btc` entry with
denominator `10^8`. -/
def UNITS : String → Option ℕ :=
  fun u => if u = btcStr then some btcDenominator else none

/-- The externally-owned settings snapshot. `displayFiat = none` models a
missing or non-boolean `displayFiat` field; a `none` result of
`exchangeRate` models a missing exchange-rate entry. -/
structure Settings where
  displayFiat : Option Bool
  unit : String
  fiat : String
  exchangeRate : String → Option ℚ

/-- JavaScript `Number.isInteger` on a (finite) rational. -/
def isJsInt (q : ℚ) : Bool := q.den == 1

/-! ## The conversion helpers of `helper.js` -/

/-- Model of `formatNumber`: coerce to a number, substitute 0 for NaN, render with
locale grouping and up to 8 fractional digits. -/
def formatNumber (val : JsVal) : String :=
  let num := jsToNumber val
  let num2 := if num = .nan then .fin 0 else num
  String.mk (renderJsNum true 0 8 num2)

/-- Model of `formatFiat`: coerce to a number, substitute 0 for NaN, render as
currency; if the rendering matches `/0[,.]0{2}/` while the value is
strictly between 0 and 1 in magnitude, render `"< "` plus the rendering of
`±0.01` instead. -/
def formatFiat (val : JsVal) (currency : String) : String :=
  let num := jsToNumber val
  let n := if num = .nan then .fin 0 else num
  let str := intlCurrency currency n
  if n.ltQ 1 && n.gtQ 0 && test00 str then
    String.mk (['<', ' '] ++ intlCurrency currency (.fin (1 / 100)))
  else if n.abs.ltQ 1 && n.abs.gtQ 0 && test00 str then
    String.mk (['<', ' '] ++ intlCurrency currency (.fin (-(1 / 100))))
  else String.mk str

/-- Model of `toSatoshis`: accept only strings matching `^[0-9]*[.]?[0-9]*$` and a
settings object with boolean `displayFiat`; multiply the parsed amount by
the fiat rate (or 0 when missing) and the btc denominator in fiat mode, or
by the selected unit's denominator otherwise, and `Math.round`.
A unit key absent from `UNITS` is a TypeError (`undefined.denominator`). -/
def toSatoshis (amount : String) (settings : Option Settings) : Except JsErr JsNum :=
  if !decPattern amount.data then .error .invalidInput
  else match settings with
  | none => .error .invalidInput
  | some s =>
    match s.displayFiat with
    | none => .error .invalidInput
    | some true =>
        let rate := (s.exchangeRate s.fiat).getD 0
        .ok (jsRoundNum (((jsStrToNum amount).mul (.fin rate)).mul
          (.fin (btcDenominator : ℚ))))
    | some false =>
        match UNITS s.unit with
        | none => .error .typeError
        | some d => .ok (jsRoundNum ((jsStrToNum amount).mul (.fin (d : ℚ))))

/-- Model of `calculateExchangeRate`: `satoshis / rate / satoshisPerBtc` with the
missing-rate substitution `|| 0`. There is no `!settings` guard in the
source, so an absent settings object is a TypeError, not `InvalidInput`. -/
def calculateExchangeRate (satoshis : ℚ) (settings : Option Settings) :
    Except JsErr JsNum :=
  if !isJsInt satoshis then .error .invalidInput
  else match settings with
  | none => .error .typeError
  | some s =>
    match s.displayFiat with
    | none => .error .invalidInput
    | some _ =>
        let rate := (s.exchangeRate s.fiat).getD 0
        .ok (((JsNum.fin satoshis).div (.fin rate)).div
          (.fin (btcDenominator : ℚ)))

/-- Model of `toAmount`: integer satoshis to a raw `en-US` numeric string; the fiat
branch formats the exchange-rate quotient with 2 to `fiatPrecision`
fractional digits, the unit branch divides by the unit denominator and
formats with 0 to 8 fractional digits; never grouped. -/
def toAmount (satoshis : ℚ) (settings : Option Settings)
    (fiatPrecision : ℕ := 8) : Except JsErr String :=
  if !isJsInt satoshis then .error .invalidInput
  else match settings with
  | none => .error .invalidInput
  | some s =>
    match s.displayFiat with
    | none => .error .invalidInput
    | some true =>
        match calculateExchangeRate satoshis (some s) with
        | .error e => .error e
        | .ok num => .ok (String.mk (renderJsNum false 2 fiatPrecision num))
    | some false =>
        match UNITS s.unit with
        | none => .error .typeError
        | some d =>
            .ok (String.mk (renderJsNum false 0 8 (JsNum.fin (satoshis / (d : ℚ)))))

/-- JavaScript truncation toward zero (the quotient hidden inside `%`). -/
def jsTrunc (q : ℚ) : ℤ := if 0 ≤ q then ⌊q⌋ else ⌈q⌉

/-- JavaScript remainder `a % b`: same sign as the dividend. -/
def jsRemQ (a b : ℚ) : ℚ := a - b * ((jsTrunc (a / b) : ℤ) : ℚ)

/-- Decimal characters of an integer, as a JavaScript template literal
renders an integer-valued number. -/
def intStrChars (z : ℤ) : List Char :=
  (if z < 0 then ['-'] else []) ++ intChars z.natAbs

/-- The word `day`. -/
def dayWord : String := "day"

/-- The word `hour`. -/
def hourWord : String := "hour"

/-- The plural suffix. -/
def plS : String := "s"

/-- The separator `" and "`. -/
def andSep : String := " and "

/-- The space between a count and its word. -/
def spaceSep : String := " "

/-- Model of `getTimeTilAvailable`: blocks to `"<days> day(s) and <hours> hour(s)"`
with `days = Math.floor(numBlocks / 144)` and
`hours = Math.floor((numBlocks % 144) / 6)`. -/
def getTimeTilAvailable (numBlocks : ℚ) : Except JsErr String :=
  if !isJsInt numBlocks then .error .invalidInput
  else
    let days : ℤ := ⌊numBlocks / (24 * 6)⌋
    let hours : ℤ := ⌊jsRemQ numBlocks (24 * 6) / 6⌋
    .ok (String.mk (intStrChars days) ++ spaceSep ++
      (if days = 1 then dayWord else dayWord ++ plS) ++ andSep ++
      String.mk (intStrChars hours) ++ spaceSep ++
      (if hours = 1 then hourWord else hourWord ++ plS))

/-! ## The async control utilities

`poll` and `retry` run an asynchronous operation strictly sequentially; an
execution is determined by the outcome of each invocation, modelled as a
function from the invocation index to `Except`. The result carries the
number of invocations performed. JavaScript truthiness of the operation's
result is an explicit predicate. -/

/-- Result of a `poll` run: the first truthy value, a propagated failure,
or the `MaxRetriesExceeded` error, each with the number of invocations
performed. -/
inductive PollResult (ε α : Type) : Type where
  | ok (a : α) (calls : ℕ)
  | err (e : ε) (calls : ℕ)
  | maxRetries (calls : ℕ)
deriving DecidableEq

/-- The loop of `poll`, with `i` the number of invocations already made:
`while (retries--) { const r = await api(); if (r) return r; await nap(i); }
throw new Error('Maximum retries for polling reached');`. -/
def pollAux {ε α : Type} (truthy : α → Bool) (op : ℕ → Except ε α) :
    ℕ → ℕ → PollResult ε α
  | 0, i => .maxRetries i
  | r + 1, i =>
      match op i with
      | .error e => .err e (i + 1)
      | .ok a => if truthy a then .ok a (i + 1) else pollAux truthy op r (i + 1)

/-- Model of `poll(api, interval, retries)` (the interval only affects timing). -/
def poll {ε α : Type} (truthy : α → Bool) (op : ℕ → Except ε α)
    (retries : ℕ) : PollResult ε α :=
  pollAux truthy op retries 0

/-- Result of a `retry` run: a returned value, a re-raised last failure, or
the terminal `return null`, each with the number of invocations made. -/
inductive RetryResult (ε α : Type) : Type where
  | ok (a : α) (calls : ℕ)
  | err (e : ε) (calls : ℕ)
  | nullResult (calls : ℕ)
deriving DecidableEq

/-- The loop of `retry`: `while (retries--) { try { return await api(); }
catch (err) { if (!retries) throw err; } await nap(interval); } return null;`. -/
def retryAux {ε α : Type} (op : ℕ → Except ε α) : ℕ → ℕ → RetryResult ε α
  | 0, i => .nullResult i
  | r + 1, i =>
      match op i with
      | .ok a => .ok a (i + 1)
      | .error e => if r = 0 then .err e (i + 1) else retryAux op r (i + 1)

/-- Model of `retry(api, interval, retries)` (the interval only affects timing). -/
def retry {ε α : Type} (op : ℕ → Except ε α) (retries : ℕ) : RetryResult ε α :=
  retryAux op retries 0

/-! ## The geometry helper

`Math.cos`, `Math.sin` and `Math.PI` are host primitives; the model is
parametric in them, so the theorems hold for every implementation. -/

/-- Model of `polarToCartesian`: angle measured clockwise from 12 o'clock, offset by
-90° before converting to radians. -/
def polarToCartesian (cosF sinF : ℚ → ℚ) (piV centerX centerY radius
    angleInDegrees : ℚ) : ℚ × ℚ :=
  let angleInRadians := (angleInDegrees - 90) * piV / 180
  (centerX + radius * cosF angleInRadians, centerY + radius * sinF angleInRadians)

/-- The components of the SVG path produced by `generateArc`:
`M moveX moveY L lineX lineY A rx ry 0 largeArcFlag sweepFlag endX endY Z`. -/
structure ArcPath where
  moveX : ℚ
  moveY : ℚ
  lineX : ℚ
  lineY : ℚ
  rx : ℚ
  ry : ℚ
  largeArcFlag : Char
  sweepFlag : Char
  endX : ℚ
  endY : ℚ

/-- Model of `generateArc`: the arc starts at the cartesian point of `endAngle` and
ends at the point of `startAngle`; the large-arc flag is set when the span
exceeds 180°, the sweep flag when `endAngle` is exactly 360, in which case
the final x-coordinate is nudged by -0.01. -/
def generateArc (cosF sinF : ℚ → ℚ) (piV x y radius startAngle endAngle : ℚ) :
    ArcPath :=
  let s := polarToCartesian cosF sinF piV x y radius endAngle
  let e := polarToCartesian cosF sinF piV x y radius startAngle
  { moveX := x
    moveY := y
    lineX := s.1
    lineY := s.2
    rx := radius
    ry := radius
    largeArcFlag := if endAngle - startAngle ≤ 180 then '0' else '1'
    sweepFlag := if endAngle = 360 then '1' else '0'
    endX := if endAngle = 360 then e.1 - 1 / 100 else e.1
    endY := e.2 }

deriving instance DecidableEq for Except

/-- The character property enjoyed by every character of a raw numeric
string rendered by `formatFixedNN`. -/
def digitOrDot (c : Char) : Prop := isDigitC c = true ∨ c = '.'

/-! ## Concrete fixtures used by instances and witnesses -/

/-- A settings snapshot in unit mode with the `btc` unit selected. -/
def btcSettings : Settings :=
  { displayFiat := some false
    unit := btcStr
    fiat := usdStr
    exchangeRate := fun _ => none }

/-- A settings snapshot in fiat mode with a usd rate of 4000. -/
def usdSettings : Settings :=
  { displayFiat := some true
    unit := btcStr
    fiat := usdStr
    exchangeRate := fun c => if c = usdStr then some 4000 else none }

/-- An operation that fails on every invocation, with distinguishable errors. -/
def failOp : ℕ → Except ℕ ℕ := fun i => .error i

/-- An operation that always resolves with the falsy value 0. -/
def falsyOp : ℕ → Except ℕ ℕ := fun _ => .ok 0

/-- JavaScript truthiness of a number: zero is falsy. -/
def truthyNat : ℕ → Bool := fun n => decide (n ≠ 0)

/-- A trivial stand-in for the host trigonometric primitives. -/
def zeroFun : ℚ → ℚ := fun _ => 0

/-- The string `"1 day and 1 hour"`. -/
def oneDayOneHour : String := "1 day and 1 hour"

/-- The string `"abc"`. -/
def abcStr : String := "abc"

/-- The string `"< $0.01"`. -/
def ltPosStr : String := "< $0.01"

/-- The string `"< -$0.01"`. -/
def ltNegStr : String := "< -$0.01"

/-- The string `"0.0001"`. -/
def amount00001 : String := "0.0001"

/-- The string `"2"`. -/
def twoStr : String := "2"

/-- The empty string. -/
def emptyStr : String := ""

/-- The string `"."`. -/
def dotStr : String := "."

theorem charDigit_digitChar {d : ℕ} (h : d < 10) : charDigit (digitChar d) = d := by
  interval_cases d <;> rfl

theorem isDigitC_digitChar {d : ℕ} (h : d < 10) : isDigitC (digitChar d) = true := by
  interval_cases d <;> rfl

theorem natDigitsAux_zero (fuel : ℕ) : natDigitsAux fuel 0 = [] := by
  cases fuel <;> rfl

theorem ofDigits_natDigitsAux : ∀ fuel n, n ≤ fuel → ofDigits (natDigitsAux fuel n) = n := by
  intro fuel
  induction fuel with
  | zero => intro n hn; interval_cases n; rfl
  | succ f ih =>
    intro n hn
    match n with
    | 0 => rfl
    | m + 1 =>
      have hdiv : (m + 1) / 10 ≤ f := by
        have h1 : (m + 1) / 10 < m + 1 := Nat.div_lt_self (Nat.succ_pos m) (by norm_num)
        omega
      show ofDigits ((m + 1) % 10 :: natDigitsAux f ((m + 1) / 10)) = m + 1
      simp only [ofDigits, ih _ hdiv]
      omega

theorem ofDigits_natDigits (n : ℕ) : ofDigits (natDigits n) = n :=
  ofDigits_natDigitsAux n n le_rfl

theorem natDigitsAux_lt_ten : ∀ fuel n, ∀ d ∈ natDigitsAux fuel n, d < 10 := by
  intro fuel
  induction fuel with
  | zero => intro n d hd; rw [show natDigitsAux 0 n = [] by cases n <;> rfl] at hd; cases hd
  | succ f ih =>
    intro n d hd
    match n with
    | 0 => cases hd
    | m + 1 =>
      simp only [natDigitsAux, List.mem_cons] at hd
      rcases hd with h | h
      · subst h; exact Nat.mod_lt _ (by norm_num)
      · exact ih _ _ h

theorem natDigits_lt_ten (n : ℕ) : ∀ d ∈ natDigits n, d < 10 :=
  natDigitsAux_lt_ten n n

theorem natDigitsAux_length : ∀ fuel n k, n ≤ fuel → n < 10 ^ k →
    (natDigitsAux fuel n).length ≤ k := by
  intro fuel
  induction fuel with
  | zero => intro n k hn _; interval_cases n; simp [natDigitsAux]
  | succ f ih =>
    intro n k hn hk
    match n with
    | 0 => simp [natDigitsAux]
    | m + 1 =>
      have hkpos : 0 < k := by
        by_contra h
        push_neg at h
        interval_cases k
        simp at hk
      obtain ⟨k', rfl⟩ : ∃ k', k = k' + 1 := ⟨k - 1, by omega⟩
      have hdivfuel : (m + 1) / 10 ≤ f := by
        have h1 : (m + 1) / 10 < m + 1 := Nat.div_lt_self (Nat.succ_pos m) (by norm_num)
        omega
      have hdivlt : (m + 1) / 10 < 10 ^ k' := by
        rw [Nat.div_lt_iff_lt_mul (by norm_num)]
        calc m + 1 < 10 ^ (k' + 1) := hk
        _ = 10 ^ k' * 10 := by ring
      simpa [natDigitsAux] using ih _ k' hdivfuel hdivlt

theorem natDigits_length {n k : ℕ} (h : n < 10 ^ k) : (natDigits n).length ≤ k :=
  natDigitsAux_length n n k le_rfl h

theorem charsToNatAux_nil (acc : ℕ) : charsToNatAux acc [] = acc := rfl

theorem charsToNatAux_cons (acc : ℕ) (c : Char) (r : List Char) :
    charsToNatAux acc (c :: r) = charsToNatAux (10 * acc + charDigit c) r := rfl

theorem charsToNatAux_acc (l : List Char) :
    ∀ acc, charsToNatAux acc l = acc * 10 ^ l.length + charsToNat l := by
  induction l with
  | nil =>
    intro acc
    rw [charsToNatAux_nil]
    simp [charsToNat, charsToNatAux_nil]
  | cons c r ih =>
    intro acc
    rw [charsToNatAux_cons, ih (10 * acc + charDigit c)]
    have h0 : charsToNat (c :: r) = charsToNatAux (10 * 0 + charDigit c) r := rfl
    rw [h0, ih (10 * 0 + charDigit c)]
    simp only [List.length_cons]
    ring

theorem charsToNat_cons (c : Char) (r : List Char) :
    charsToNat (c :: r) = charDigit c * 10 ^ r.length + charsToNat r := by
  have h0 : charsToNat (c :: r) = charsToNatAux (10 * 0 + charDigit c) r := rfl
  rw [h0, charsToNatAux_acc r (10 * 0 + charDigit c)]
  ring_nf

theorem charsToNat_append (a b : List Char) :
    charsToNat (a ++ b) = charsToNat a * 10 ^ b.length + charsToNat b := by
  induction a with
  | nil => simp [charsToNat, charsToNatAux_nil]
  | cons c r ih =>
    rw [List.cons_append, charsToNat_cons, ih, charsToNat_cons, List.length_append]
    ring

theorem charsToNat_revmap (l : List ℕ) (h : ∀ d ∈ l, d < 10) :
    charsToNat (l.reverse.map digitChar) = ofDigits l := by
  induction l with
  | nil => rfl
  | cons d r ih =>
    have hd : d < 10 := h d (List.mem_cons_self d r)
    have hr : ∀ x ∈ r, x < 10 := fun x hx => h x (List.mem_cons_of_mem _ hx)
    simp only [List.reverse_cons, List.map_append, List.map_cons, List.map_nil]
    rw [charsToNat_append, ih hr]
    have h1 : charsToNat [digitChar d] = charDigit (digitChar d) := by
      rw [show ([digitChar d] : List Char) = digitChar d :: [] from rfl, charsToNat_cons]
      simp [charsToNat, charsToNatAux_nil]
    rw [h1, charDigit_digitChar hd]
    simp only [ofDigits, List.length_cons, List.length_nil]
    ring

theorem charsToNat_digBE (n : ℕ) : charsToNat (digBE n) = n := by
  rw [digBE, charsToNat_revmap _ (natDigits_lt_ten n), ofDigits_natDigits]

theorem digBE_length {n k : ℕ} (h : n < 10 ^ k) : (digBE n).length ≤ k := by
  simpa [digBE] using natDigits_length h

theorem digBE_all_digit (n : ℕ) : ∀ c ∈ digBE n, isDigitC c = true := by
  intro c hc
  simp only [digBE, List.mem_map, List.mem_reverse] at hc
  obtain ⟨d, hd, rfl⟩ := hc
  exact isDigitC_digitChar (natDigits_lt_ten n d hd)

/-! ## List lemmas for the parse/format round trip -/

theorem takeWhile_app {p : Char → Bool} {a b : List Char}
    (ha : ∀ c ∈ a, p c = true) (hb : ∀ x, b.head? = some x → p x = false) :
    (a ++ b).takeWhile p = a ∧ (a ++ b).dropWhile p = b := by
  induction a with
  | nil =>
    simp only [List.nil_append]
    cases b with
    | nil => simp [List.takeWhile, List.dropWhile]
    | cons x r =>
      have hx : p x = false := hb x rfl
      simp [List.takeWhile, List.dropWhile, hx]
  | cons c r ih =>
    have hc : p c = true := ha c (List.mem_cons_self c r)
    have hr : ∀ x ∈ r, p x = true := fun x hx => ha x (List.mem_cons_of_mem _ hx)
    have := ih hr
    simp [List.takeWhile, List.dropWhile, hc, this.1, this.2]

theorem dropWhile_eq_self {p : Char → Bool} {l : List Char}
    (h : ∀ c ∈ l, p c = false) : l.dropWhile p = l := by
  cases l with
  | nil => rfl
  | cons c r => simp [List.dropWhile, h c (List.mem_cons_self c r)]

theorem trimWs_eq_self {l : List Char} (h : ∀ c ∈ l, isWs c = false) :
    trimWs l = l := by
  unfold trimWs
  rw [dropWhile_eq_self h, dropWhile_eq_self (fun c hc => h c (List.mem_reverse.mp hc)),
    List.reverse_reverse]

theorem trimTrail_zero_spec (l : List Char) :
    ∃ m, l = trimTrail 0 l ++ List.replicate m '0' ∧
      (trimTrail 0 l).length + m = l.length := by
  refine ⟨(l.reverse.takeWhile (fun c => c == '0')).length, ?_, ?_⟩
  · have hsplit : l.reverse.takeWhile (fun c => c == '0') ++
        l.reverse.dropWhile (fun c => c == '0') = l.reverse :=
      List.takeWhile_append_dropWhile _ _
    have hrep : l.reverse.takeWhile (fun c => c == '0') =
        List.replicate (l.reverse.takeWhile (fun c => c == '0')).length '0' := by
      apply List.eq_replicate_of_mem
      intro b hb
      have := List.mem_takeWhile_imp hb
      simpa using this
    have h0 : trimTrail 0 l = (l.reverse.dropWhile (fun c => c == '0')).reverse := by
      unfold trimTrail
      simp
    rw [h0]
    conv_lhs => rw [← List.reverse_reverse l, ← hsplit]
    rw [List.reverse_append]
    congr 1
    rw [hrep, List.reverse_replicate]
    simp
  · have h0 : trimTrail 0 l = (l.reverse.dropWhile (fun c => c == '0')).reverse := by
      unfold trimTrail
      simp
    rw [h0, List.length_reverse]
    have hsplit : l.reverse.takeWhile (fun c => c == '0') ++
        l.reverse.dropWhile (fun c => c == '0') = l.reverse :=
      List.takeWhile_append_dropWhile _ _
    have := congrArg List.length hsplit
    simp only [List.length_append, List.length_reverse] at this
    omega

theorem charsToNat_replicate_zero (m : ℕ) :
    charsToNat (List.replicate m '0') = 0 := by
  induction m with
  | zero => rfl
  | succ k ih =>
    rw [List.replicate_succ, charsToNat_cons, ih]
    simp [charDigit]

theorem charsToNat_padZeros (k : ℕ) (l : List Char) :
    charsToNat (padZeros k l) = charsToNat l := by
  rw [padZeros, charsToNat_append, charsToNat_replicate_zero]
  ring

theorem padZeros_length {k : ℕ} {l : List Char} (h : l.length ≤ k) :
    (padZeros k l).length = k := by
  simp [padZeros]
  omega

theorem padZeros_all_digit {k : ℕ} {l : List Char}
    (h : ∀ c ∈ l, isDigitC c = true) :
    ∀ c ∈ padZeros k l, isDigitC c = true := by
  intro c hc
  rcases List.mem_append.mp hc with h0 | h0
  · rw [List.eq_of_mem_replicate h0]; rfl
  · exact h c h0

theorem intChars_all_digit (n : ℕ) : ∀ c ∈ intChars n, isDigitC c = true := by
  intro c hc
  by_cases h : n = 0
  · simp [intChars, h] at hc
    subst hc; rfl
  · simp only [intChars, if_neg h] at hc
    exact digBE_all_digit n c hc

theorem charsToNat_intChars (n : ℕ) : charsToNat (intChars n) = n := by
  by_cases h : n = 0
  · subst h; rfl
  · simp only [intChars, if_neg h]
    exact charsToNat_digBE n

theorem intChars_ne_nil (n : ℕ) : intChars n ≠ [] := by
  by_cases h : n = 0
  · subst h; simp [intChars]
  · simp only [intChars, if_neg h]
    intro hc
    have := charsToNat_digBE n
    rw [hc] at this
    exact h this.symm

/-! ## Character classifications -/

theorem isDigitC_bounds {c : Char} (h : isDigitC c = true) :
    48 ≤ c.toNat ∧ c.toNat ≤ 57 := by
  simp only [isDigitC, Bool.and_eq_true, decide_eq_true_eq] at h
  exact h

theorem digit_not_ws {c : Char} (h : isDigitC c = true) : isWs c = false := by
  obtain ⟨h1, h2⟩ := isDigitC_bounds h
  unfold isWs
  rw [decide_eq_false (show ¬c.toNat = 32 by omega),
    decide_eq_false (show ¬c.toNat ≤ 13 by omega),
    decide_eq_false (show ¬c.toNat = 160 by omega),
    decide_eq_false (show ¬c.toNat = 65279 by omega)]
  simp

theorem digit_ne_of {c k : Char} (h : isDigitC c = true)
    (hk : isDigitC k = false) : c ≠ k := by
  intro he
  rw [he, hk] at h
  cases h

theorem digitOrDot_not_ws {c : Char} (h : digitOrDot c) : isWs c = false := by
  rcases h with h | h
  · exact digit_not_ws h
  · rw [h]; rfl

theorem take2_ne {l : List Char} (hall : ∀ x ∈ l, digitOrDot x)
    {a k : Char} (hk : isDigitC k = false) (hk2 : k ≠ '.') :
    l.take 2 ≠ [a, k] := by
  intro he
  have hmem : k ∈ l.take 2 := by rw [he]; simp
  rcases hall k (List.take_subset _ _ hmem) with h | h
  · rw [h] at hk; cases hk
  · exact hk2 h

theorem isEmpty_false_of_ne_nil {l : List Char} (h : l ≠ []) :
    l.isEmpty = false := by
  cases l with
  | nil => exact absurd rfl h
  | cons c r => rfl

/-! ## Reduction of `Number()` on raw digit strings -/

theorem jsCharsToNum_digits (c : Char) (r : List Char)
    (hc : isDigitC c = true) (hall : ∀ x ∈ c :: r, digitOrDot x) :
    jsCharsToNum (c :: r) = parseDecimal (c :: r) := by
  have hws : ∀ x ∈ c :: r, isWs x = false := fun x hx => digitOrDot_not_ws (hall x hx)
  unfold jsCharsToNum
  rw [trimWs_eq_self hws]
  show (if c = '+' then _ else if c = '-' then _ else parseUnsignedOrRadix (c :: r)) = _
  rw [if_neg (digit_ne_of hc (by decide)), if_neg (digit_ne_of hc (by decide))]
  unfold parseUnsignedOrRadix
  rw [if_neg (not_or.mpr ⟨take2_ne hall (by decide) (by decide),
        take2_ne hall (by decide) (by decide)⟩),
    if_neg (not_or.mpr ⟨take2_ne hall (by decide) (by decide),
        take2_ne hall (by decide) (by decide)⟩),
    if_neg (not_or.mpr ⟨take2_ne hall (by decide) (by decide),
        take2_ne hall (by decide) (by decide)⟩)]
  unfold parseUnsigned
  rw [if_neg ?hinf]
  case hinf =>
    intro he
    have hmem : 'I' ∈ c :: r := by rw [he]; decide
    rcases hall _ hmem with h | h
    · exact absurd h (by decide)
    · exact absurd h (by decide)

theorem all_digits_takeWhile {l : List Char}
    (h : ∀ c ∈ l, isDigitC c = true) :
    l.takeWhile isDigitC = l ∧ l.dropWhile isDigitC = [] := by
  have := takeWhile_app (a := l) (b := []) h (fun x hx => by simp at hx)
  simpa using this

theorem parseDecimal_int (ip : ℕ) :
    parseDecimal (intChars ip) = .fin ((ip : ℚ)) := by
  obtain ⟨ht, hd⟩ := all_digits_takeWhile (intChars_all_digit ip)
  unfold parseDecimal
  rw [ht, hd]
  show (if (intChars ip).isEmpty = true then JsNum.nan
    else JsNum.fin ((charsToNat (intChars ip) : ℚ))) = _
  rw [if_neg]
  · rw [charsToNat_intChars]
  · rw [isEmpty_false_of_ne_nil (intChars_ne_nil ip)]
    simp

theorem parseDecimal_int_frac (ip : ℕ) (f : List Char)
    (hf : ∀ c ∈ f, isDigitC c = true) :
    parseDecimal (intChars ip ++ '.' :: f) =
      .fin ((ip : ℚ) + (charsToNat f : ℚ) / 10 ^ f.length) := by
  obtain ⟨ht, hd⟩ := takeWhile_app (a := intChars ip) (b := '.' :: f)
    (intChars_all_digit ip)
    (fun x hx => by
      simp only [List.head?_cons, Option.some_inj] at hx
      rw [← hx]; rfl)
  obtain ⟨ht2, hd2⟩ := all_digits_takeWhile hf
  unfold parseDecimal
  rw [ht, hd]
  show (if ('.' : Char) = '.' then _ else _) = _
  rw [if_pos rfl, ht2, hd2]
  show (if _ then _ else JsNum.fin (decValue (intChars ip) f)) = _
  rw [if_neg]
  · unfold decValue
    rw [charsToNat_intChars]
  · rw [isEmpty_false_of_ne_nil (intChars_ne_nil ip)]
    simp

/-! ## The format-then-parse round trip on satoshi values -/

theorem jsCharsToNum_intChars_append (ip : ℕ) (rest : List Char)
    (hall : ∀ x ∈ intChars ip ++ rest, digitOrDot x) :
    jsCharsToNum (intChars ip ++ rest) = parseDecimal (intChars ip ++ rest) := by
  cases hi : intChars ip with
  | nil => exact absurd hi (intChars_ne_nil ip)
  | cons c r =>
    rw [List.cons_append]
    refine jsCharsToNum_digits c (r ++ rest) ?_ ?_
    · exact intChars_all_digit ip c (by rw [hi]; exact List.mem_cons_self c r)
    · rw [← List.cons_append, ← hi]
      exact hall

theorem formatFixedNN_nat (n : ℕ) :
    formatFixedNN false ((n : ℚ) / 10 ^ (8 : ℕ)) 0 8 =
      intChars (n / 10 ^ 8) ++
        (if (trimTrail 0 (padZeros 8 (digBE (n % 10 ^ 8)))).isEmpty then []
         else '.' :: trimTrail 0 (padZeros 8 (digBE (n % 10 ^ 8)))) := by
  have hq : (n : ℚ) / 10 ^ (8 : ℕ) * 10 ^ (8 : ℕ) + 1 / 2 = (n : ℚ) + 1 / 2 := by
    rw [div_mul_cancel₀ _ (show ((10 : ℚ) ^ (8 : ℕ)) ≠ 0 by norm_num)]
  have hfl : ⌊(n : ℚ) + 1 / 2⌋ = (n : ℤ) := by
    rw [Int.floor_nat_add n ((1 : ℚ) / 2)]
    norm_num
  unfold formatFixedNN
  rw [hq, hfl]
  simp only [Int.toNat_natCast]
  rfl

theorem format_parse_nat (n : ℕ) :
    decPattern (formatFixedNN false ((n : ℚ) / 10 ^ (8 : ℕ)) 0 8) = true ∧
    jsCharsToNum (formatFixedNN false ((n : ℚ) / 10 ^ (8 : ℕ)) 0 8) =
      .fin ((n : ℚ) / 10 ^ (8 : ℕ)) := by
  rw [formatFixedNN_nat]
  have hfplt : n % 10 ^ 8 < 10 ^ 8 := Nat.mod_lt _ (by norm_num)
  set ip := n / 10 ^ 8 with hip
  set fp := n % 10 ^ 8 with hfp
  set P := padZeros 8 (digBE fp) with hPdef
  obtain ⟨m, hdecomp, hlen⟩ := trimTrail_zero_spec P
  set T := trimTrail 0 P with hTdef
  have hPlen : P.length = 8 := padZeros_length (digBE_length hfplt)
  have hPdig : ∀ c ∈ P, isDigitC c = true := padZeros_all_digit (digBE_all_digit fp)
  have hTdig : ∀ c ∈ T, isDigitC c = true := fun c hc =>
    hPdig c (by rw [hdecomp]; exact List.mem_append_left _ hc)
  have hPval : charsToNat P = fp := by
    rw [hPdef, charsToNat_padZeros, charsToNat_digBE]
  have hTval : charsToNat T * 10 ^ m = fp := by
    rw [← hPval]
    conv_rhs => rw [hdecomp]
    rw [charsToNat_append, charsToNat_replicate_zero, List.length_replicate]
    ring
  have hn : 10 ^ 8 * ip + fp = n := Nat.div_add_mod n (10 ^ 8)
  by_cases hTe : T = []
  · have hfp0 : fp = 0 := by
      rw [← hTval, hTe]
      simp [charsToNat, charsToNatAux_nil]
    have h' : 10 ^ 8 * ip = n := by
      have h2 := hn
      rw [hfp0, Nat.add_zero] at h2
      exact h2
    have hval : (ip : ℚ) = (n : ℚ) / 10 ^ (8 : ℕ) := by
      rw [eq_div_iff (show ((10 : ℚ) ^ (8 : ℕ)) ≠ 0 by norm_num)]
      have hc : ((10 ^ 8 * ip : ℕ) : ℚ) = (n : ℚ) := by exact_mod_cast h'
      push_cast at hc
      norm_num
      linarith
    rw [hTe]
    simp only [List.isEmpty_nil, if_true, List.append_nil]
    constructor
    · obtain ⟨_, hd⟩ := all_digits_takeWhile (intChars_all_digit ip)
      unfold decPattern
      rw [hd]
    · have hall : ∀ x ∈ intChars ip ++ [], digitOrDot x := by
        intro x hx
        rw [List.append_nil] at hx
        exact Or.inl (intChars_all_digit ip x hx)
      have := jsCharsToNum_intChars_append ip [] hall
      rw [List.append_nil] at this
      rw [this, parseDecimal_int, hval]
  · have hTlen : T.length + m = 8 := by rw [← hPlen]; exact hlen
    have hpow : (10 : ℚ) ^ (8 : ℕ) = 10 ^ T.length * 10 ^ m := by
      rw [← pow_add, hTlen]
    have hNat : 10 ^ 8 * ip + charsToNat T * 10 ^ m = n := by rw [hTval]; exact hn
    have hval : (ip : ℚ) + (charsToNat T : ℚ) / 10 ^ T.length =
        (n : ℚ) / 10 ^ (8 : ℕ) := by
      rw [eq_div_iff (show ((10 : ℚ) ^ (8 : ℕ)) ≠ 0 by norm_num), add_mul, hpow,
        show (charsToNat T : ℚ) / 10 ^ T.length * (10 ^ T.length * 10 ^ m) =
          (charsToNat T : ℚ) * 10 ^ m from by
            field_simp
            ring,
        ← hpow]
      have hc : ((10 ^ 8 * ip + charsToNat T * 10 ^ m : ℕ) : ℚ) = (n : ℚ) := by
        exact_mod_cast hNat
      push_cast at hc
      norm_num
      linarith
    simp only [isEmpty_false_of_ne_nil hTe, Bool.false_eq_true, if_false]
    have hdot : ∀ x, List.head? ('.' :: T) = some x → isDigitC x = false := by
      intro x hx
      simp only [List.head?_cons, Option.some_inj] at hx
      rw [← hx]
      rfl
    obtain ⟨ht, hd⟩ := takeWhile_app (a := intChars ip) (b := '.' :: T)
      (intChars_all_digit ip) hdot
    constructor
    · unfold decPattern
      rw [hd]
      show (('.' : Char) == '.' && T.all isDigitC) = true
      simp only [beq_self_eq_true, Bool.true_and, List.all_eq_true]
      exact fun c hc => hTdig c hc
    · have hall : ∀ x ∈ intChars ip ++ '.' :: T, digitOrDot x := by
        intro x hx
        rcases List.mem_append.mp hx with h | h
        · exact Or.inl (intChars_all_digit ip x h)
        · rcases List.mem_cons.mp h with h2 | h2
          · exact Or.inr h2
          · exact Or.inl (hTdig x h2)
      rw [jsCharsToNum_intChars_append ip ('.' :: T) hall,
        parseDecimal_int_frac ip T hTdig, hval]

/-! ## Behavior of the polling loop -/

theorem pollAux_allFalsy {ε α : Type} (truthy : α → Bool) (op : ℕ → Except ε α) :
    ∀ r i, (∀ k < r, ∃ b, op (i + k) = .ok b ∧ truthy b = false) →
      pollAux truthy op r i = .maxRetries (i + r) := by
  intro r
  induction r with
  | zero => intro i _; rw [Nat.add_zero]; rfl
  | succ r ih =>
    intro i h
    obtain ⟨b, hok, hf⟩ := h 0 (Nat.succ_pos r)
    rw [Nat.add_zero] at hok
    show (match op i with
      | .error e => PollResult.err e (i + 1)
      | .ok a => if truthy a then .ok a (i + 1) else pollAux truthy op r (i + 1)) = _
    rw [hok]
    simp only [hf, Bool.false_eq_true, if_false]
    rw [ih (i + 1) (fun k hk => by
      obtain ⟨b2, h2, h3⟩ := h (k + 1) (by omega)
      exact ⟨b2, by rw [show i + 1 + k = i + (k + 1) by omega]; exact h2, h3⟩)]
    congr 1
    omega

theorem pollAux_step {ε α : Type} (truthy : α → Bool) (op : ℕ → Except ε α) :
    ∀ j r i, j < r → (∀ k < j, ∃ b, op (i + k) = .ok b ∧ truthy b = false) →
      pollAux truthy op r i = pollAux truthy op (r - j) (i + j) := by
  intro j
  induction j with
  | zero => intro r i _ _; rw [Nat.sub_zero, Nat.add_zero]
  | succ j ih =>
    intro r i hj h
    obtain ⟨b, hok, hf⟩ := h 0 (Nat.succ_pos j)
    rw [Nat.add_zero] at hok
    obtain ⟨r', rfl⟩ : ∃ r', r = r' + 1 := ⟨r - 1, by omega⟩
    show (match op i with
      | .error e => PollResult.err e (i + 1)
      | .ok a => if truthy a then .ok a (i + 1) else pollAux truthy op r' (i + 1)) = _
    rw [hok]
    simp only [hf, Bool.false_eq_true, if_false]
    rw [ih r' (i + 1) (by omega) (fun k hk => by
      obtain ⟨b2, h2, h3⟩ := h (k + 1) (by omega)
      exact ⟨b2, by rw [show i + 1 + k = i + (k + 1) by omega]; exact h2, h3⟩)]
    congr 1
    · omega
    · omega

/-! ## Behavior of the retry loop -/

theorem retryAux_allFail {ε α : Type} (op : ℕ → Except ε α) (es : ℕ → ε) :
    ∀ r i, 0 < r → (∀ k < r, op (i + k) = .error (es (i + k))) →
      retryAux op r i = .err (es (i + r - 1)) (i + r) := by
  intro r
  induction r with
  | zero => intro i h0; omega
  | succ r ih =>
    intro i _ h
    have hop : op i = .error (es i) := by
      have := h 0 (Nat.succ_pos r)
      rwa [Nat.add_zero] at this
    show (match op i with
      | .ok a => RetryResult.ok a (i + 1)
      | .error e => if r = 0 then .err e (i + 1) else retryAux op r (i + 1)) = _
    rw [hop]
    show (if r = 0 then RetryResult.err (es i) (i + 1) else retryAux op r (i + 1)) = _
    by_cases hr : r = 0
    · subst hr
      rw [if_pos rfl, show i + (0 + 1) - 1 = i from by omega]
    · rw [if_neg hr]
      rw [ih (i + 1) (by omega) (fun k hk => by
        rw [show i + 1 + k = i + (k + 1) by omega]
        exact h (k + 1) (by omega))]
      rw [show i + 1 + r - 1 = i + (r + 1) - 1 from by omega,
        show i + 1 + r = i + (r + 1) from by omega]

theorem retryAux_firstOk {ε α : Type} (op : ℕ → Except ε α) (a : α) :
    ∀ j r i, j < r → (∀ k < j, ∃ e, op (i + k) = .error e) →
      op (i + j) = .ok a → retryAux op r i = .ok a (i + j + 1) := by
  intro j
  induction j with
  | zero =>
    intro r i hj _ hok
    rw [Nat.add_zero] at hok
    obtain ⟨r', rfl⟩ : ∃ r', r = r' + 1 := ⟨r - 1, by omega⟩
    show (match op i with
      | .ok a => RetryResult.ok a (i + 1)
      | .error e => if r' = 0 then .err e (i + 1) else retryAux op r' (i + 1)) = _
    rw [hok]
  | succ j ih =>
    intro r i hj h hok
    obtain ⟨e, he⟩ := h 0 (Nat.succ_pos j)
    rw [Nat.add_zero] at he
    obtain ⟨r', rfl⟩ : ∃ r', r = r' + 1 := ⟨r - 1, by omega⟩
    show (match op i with
      | .ok a => RetryResult.ok a (i + 1)
      | .error e => if r' = 0 then .err e (i + 1) else retryAux op r' (i + 1)) = _
    rw [he]
    show (if r' = 0 then RetryResult.err e (i + 1) else retryAux op r' (i + 1)) = _
    rw [if_neg (by omega : r' ≠ 0)]
    rw [ih r' (i + 1) (by omega) (fun k hk => by
        rw [show i + 1 + k = i + (k + 1) by omega]
        exact h (k + 1) (by omega))
      (by rw [show i + 1 + j = i + (j + 1) by omega]; exact hok)]
    rw [show i + 1 + j = i + (j + 1) from by omega]

theorem retryAux_no_null {ε α : Type} (op : ℕ → Except ε α) :
    ∀ r i n, 0 < r → retryAux op r i ≠ .nullResult n := by
  intro r
  induction r with
  | zero => intro i n h0; omega
  | succ r ih =>
    intro i n _
    show (match op i with
      | .ok a => RetryResult.ok a (i + 1)
      | .error e => if r = 0 then .err e (i + 1) else retryAux op r (i + 1)) ≠ _
    cases hop : op i with
    | ok a => simp
    | error e =>
      show (if r = 0 then RetryResult.err e (i + 1) else retryAux op r (i + 1)) ≠ _
      by_cases hr : r = 0
      · subst hr
        simp
      · rw [if_neg hr]
        exact ih (i + 1) n (by omega)

theorem retryAux_err_src {ε α : Type} (op : ℕ → Except ε α) :
    ∀ r i e n, retryAux op r i = .err e n → n = i + r ∧ op (n - 1) = .error e := by
  intro r
  induction r with
  | zero =>
    intro i e n h
    exact absurd h (by simp [retryAux])
  | succ r ih =>
    intro i e n h
    rw [show retryAux op (r + 1) i = (match op i with
      | .ok a => RetryResult.ok a (i + 1)
      | .error e => if r = 0 then .err e (i + 1) else retryAux op r (i + 1)) from rfl] at h
    cases hop : op i with
    | ok a =>
      rw [hop] at h
      have h2 : RetryResult.ok a (i + 1) = RetryResult.err e n := h
      cases h2
    | error e0 =>
      rw [hop] at h
      have h2 : (if r = 0 then RetryResult.err e0 (i + 1)
          else retryAux op r (i + 1)) = RetryResult.err e n := h
      by_cases hr : r = 0
      · subst hr
        rw [if_pos rfl] at h2
        cases h2
        constructor
        · omega
        · simpa using hop
      · rw [if_neg hr] at h2
        obtain ⟨hn, hsrc⟩ := ih (i + 1) e n h2
        exact ⟨by omega, hsrc⟩

/-! ## Helpers for the integer arithmetic of `getTimeTilAvailable` -/

theorem jsTrunc_intCast_div_natCast (n : ℤ) (d : ℕ) :
    jsTrunc ((n : ℚ) / (d : ℚ)) = Int.tdiv n d := by
  unfold jsTrunc
  by_cases hq : 0 ≤ (n : ℚ) / (d : ℚ)
  · rw [if_pos hq, Rat.floor_intCast_div_natCast]
    by_cases hd : d = 0
    · subst hd
      simp
    · have hn : 0 ≤ n := by
        by_contra h
        push_neg at h
        have : (n : ℚ) / (d : ℚ) < 0 :=
          div_neg_of_neg_of_pos (by exact_mod_cast h)
            (by positivity)
        linarith
      rw [Int.tdiv_eq_ediv hn (by positivity)]
  · rw [if_neg hq]
    have hd : d ≠ 0 := by
      rintro rfl
      simp at hq
    have hn : n < 0 := by
      by_contra h
      push_neg at h
      exact hq (div_nonneg (by exact_mod_cast h) (by positivity))
    rw [show ((n : ℚ) / (d : ℚ)) = -(((-n : ℤ) : ℚ) / (d : ℚ)) from by push_cast; ring,
      Int.ceil_neg, Rat.floor_intCast_div_natCast]
    have h2 : Int.tdiv n d = -Int.tdiv (-n) d := by
      rw [← Int.neg_tdiv]
      simp
    rw [h2, Int.tdiv_eq_ediv (by omega) (by positivity)]

theorem jsRemQ_intCast (n : ℤ) (d : ℕ) :
    jsRemQ (n : ℚ) (d : ℚ) = ((Int.tmod n d : ℤ) : ℚ) := by
  unfold jsRemQ
  rw [jsTrunc_intCast_div_natCast]
  have h := Int.tmod_add_tdiv n d
  have hc : ((Int.tmod n d + d * Int.tdiv n d : ℤ) : ℚ) = (n : ℚ) := by
    exact_mod_cast congrArg (fun z : ℤ => (z : ℚ)) h
  push_cast at hc
  linarith

/-! ## Claims -/

/-- C3: for every operation and positive `maxAttempts`: the first invocation
that succeeds has its result returned immediately regardless of truthiness;
if every invocation fails, `retry` makes exactly `maxAttempts` invocations,
swallows every failure but the last and re-raises the last; `retry` never
raises `MaxRetriesExceeded` (every failure it reports is the operation's own
last failure), and for positive `maxAttempts` the terminal null fallback is
never taken; in particular `retry(opThatThrowsAlways, 1, 3)` makes exactly
3 invocations and re-raises the third failure. -/
theorem c3_retry_spec :
    (∀ (ε α : Type) (op : ℕ → Except ε α) (m i : ℕ) (a : α),
        i < m → (∀ j < i, ∃ e, op j = Except.error e) → op i = Except.ok a →
        retry op m = RetryResult.ok a (i + 1)) ∧
    (∀ (ε α : Type) (op : ℕ → Except ε α) (es : ℕ → ε) (m : ℕ),
        0 < m → (∀ j < m, op j = Except.error (es j)) →
        retry op m = RetryResult.err (es (m - 1)) m) ∧
    (∀ (ε α : Type) (op : ℕ → Except ε α) (m n : ℕ), 0 < m →
        retry op m ≠ RetryResult.nullResult n) ∧
    (∀ (ε α : Type) (op : ℕ → Except ε α) (m : ℕ) (e : ε) (n : ℕ),
        retry op m = RetryResult.err e n → n = m ∧ op (m - 1) = Except.error e) ∧
    retry failOp 3 = RetryResult.err 2 3 := by
  refine ⟨?_, ?_, ?_, ?_, by decide⟩
  · intro ε α op m i a hi hprev hok
    have h := retryAux_firstOk op a i m 0 hi
      (fun k hk => by rw [Nat.zero_add]; exact hprev k hk)
      (by rw [Nat.zero_add]; exact hok)
    rw [retry, h, Nat.zero_add]
  · intro ε α op es m hm hall
    have h := retryAux_allFail op es m 0 hm
      (fun k hk => by rw [Nat.zero_add]; exact hall k hk)
    rw [retry, h, Nat.zero_add]
  · intro ε α op m n hm
    exact retryAux_no_null op m 0 n hm
  · intro ε α op m e n h
    obtain ⟨h3, h4⟩ := retryAux_err_src op m 0 e n h
    rw [Nat.zero_add] at h3
    exact ⟨h3, by rw [← h3]; exact h4⟩

/-- Witness for C3: all three invocations of an always-failing operation are
made and the third failure is re-raised. -/
theorem c3_retry_spec_witness :
    retry (fun i => (Except.error (10 * i) : Except ℕ ℕ)) 3 =
      RetryResult.err 20 3 :=
  c3_retry_spec.2.1 ℕ ℕ (fun i => Except.error (10 * i)) (fun j => 10 * j) 3
    (by norm_num) (fun j _ => rfl)

/-- C4: for every operation, truthiness predicate and positive
`maxAttempts`: `poll` returns the first truthy result immediately; a failed
invocation propagates immediately with no further invocations; and when all
invocations return falsy results, `poll` makes exactly `maxAttempts`
invocations and then fails with `MaxRetriesExceeded` — in particular an
always-falsy operation with `maxAttempts = 3` does so after exactly 3
invocations. -/
theorem c4_poll_spec :
    (∀ (ε α : Type) (truthy : α → Bool) (op : ℕ → Except ε α) (m i : ℕ)
        (a : α), i < m →
        (∀ j < i, ∃ b, op j = Except.ok b ∧ truthy b = false) →
        op i = Except.ok a → truthy a = true →
        poll truthy op m = PollResult.ok a (i + 1)) ∧
    (∀ (ε α : Type) (truthy : α → Bool) (op : ℕ → Except ε α) (m i : ℕ)
        (e : ε), i < m →
        (∀ j < i, ∃ b, op j = Except.ok b ∧ truthy b = false) →
        op i = Except.error e →
        poll truthy op m = PollResult.err e (i + 1)) ∧
    (∀ (ε α : Type) (truthy : α → Bool) (op : ℕ → Except ε α) (m : ℕ),
        (∀ j < m, ∃ b, op j = Except.ok b ∧ truthy b = false) →
        poll truthy op m = PollResult.maxRetries m) ∧
    poll truthyNat falsyOp 3 = PollResult.maxRetries 3 := by
  refine ⟨?_, ?_, ?_, by decide⟩
  · intro ε α truthy op m i a hi hprev hok ht
    have hstep := pollAux_step truthy op i m 0 hi
      (fun k hk => by rw [Nat.zero_add]; exact hprev k hk)
    rw [poll, hstep, Nat.zero_add]
    obtain ⟨r', hr'⟩ : ∃ r', m - i = r' + 1 := ⟨m - i - 1, by omega⟩
    rw [hr']
    show (match op i with
      | .error e => PollResult.err e (i + 1)
      | .ok a => if truthy a then .ok a (i + 1)
          else pollAux truthy op r' (i + 1)) = _
    rw [hok]
    simp [ht]
  · intro ε α truthy op m i e hi hprev hok
    have hstep := pollAux_step truthy op i m 0 hi
      (fun k hk => by rw [Nat.zero_add]; exact hprev k hk)
    rw [poll, hstep, Nat.zero_add]
    obtain ⟨r', hr'⟩ : ∃ r', m - i = r' + 1 := ⟨m - i - 1, by omega⟩
    rw [hr']
    show (match op i with
      | .error e => PollResult.err e (i + 1)
      | .ok a => if truthy a then .ok a (i + 1)
          else pollAux truthy op r' (i + 1)) = _
    rw [hok]
  · intro ε α truthy op m hall
    have h := pollAux_allFalsy truthy op m 0
      (fun k hk => by rw [Nat.zero_add]; exact hall k hk)
    rw [poll, h, Nat.zero_add]

/-- Witness for C4: two falsy invocations with budget 2 end in
`MaxRetriesExceeded` after exactly 2 invocations. -/
theorem c4_poll_spec_witness :
    poll (fun _ : ℕ => false) (fun i => (Except.ok i : Except ℕ ℕ)) 2 =
      PollResult.maxRetries 2 :=
  c4_poll_spec.2.2.1 ℕ ℕ (fun _ => false) (fun i => Except.ok i) 2
    (fun j _ => ⟨j, rfl, rfl⟩)

/-- C5 counterexample: the claim says the sweep flag is set only when the
span `endAngle - startAngle` is exactly 360°, but `generateArc` sets it
whenever `endAngle` is 360 — here with a span of only 270°. -/
theorem c5_counterexample :
    (generateArc zeroFun zeroFun 0 0 0 1 90 360).sweepFlag = '1' ∧
      (360 : ℚ) - 90 ≠ 360 := by
  constructor
  · rfl
  · norm_num

/-- C5 (amended): the large-arc flag is `'1'` exactly when the span exceeds
180°; the sweep flag is `'1'` exactly when `endAngle` equals 360 (regardless
of `startAngle`), and in that case the final x-coordinate is the un-nudged
polar-to-cartesian point of `startAngle` minus 0.01; otherwise it is the
un-nudged point itself. -/
theorem c5_generateArc_flags (cosF sinF : ℚ → ℚ)
    (piV x y radius startAngle endAngle : ℚ) :
    ((generateArc cosF sinF piV x y radius startAngle endAngle).largeArcFlag
        = '1' ↔ 180 < endAngle - startAngle) ∧
    ((generateArc cosF sinF piV x y radius startAngle endAngle).sweepFlag
        = '1' ↔ endAngle = 360) ∧
    (endAngle = 360 →
      (generateArc cosF sinF piV x y radius startAngle endAngle).endX =
        (polarToCartesian cosF sinF piV x y radius startAngle).1 - 1 / 100) ∧
    (endAngle ≠ 360 →
      (generateArc cosF sinF piV x y radius startAngle endAngle).endX =
        (polarToCartesian cosF sinF piV x y radius startAngle).1) := by
  refine ⟨?_, ?_, ?_, ?_⟩
  · show (if endAngle - startAngle ≤ 180 then '0' else '1') = '1' ↔ _
    by_cases h : endAngle - startAngle ≤ 180
    · rw [if_pos h]
      exact iff_of_false (by decide) (by linarith)
    · rw [if_neg h]
      exact iff_of_true rfl (by linarith)
  · show (if endAngle = 360 then '1' else '0') = '1' ↔ _
    by_cases h : endAngle = 360
    · rw [if_pos h]
      exact iff_of_true rfl h
    · rw [if_neg h]
      exact iff_of_false (by decide) h
  · intro h
    show (if endAngle = 360
      then (polarToCartesian cosF sinF piV x y radius startAngle).1 - 1 / 100
      else (polarToCartesian cosF sinF piV x y radius startAngle).1) = _
    rw [if_pos h]
  · intro h
    show (if endAngle = 360
      then (polarToCartesian cosF sinF piV x y radius startAngle).1 - 1 / 100
      else (polarToCartesian cosF sinF piV x y radius startAngle).1) = _
    rw [if_neg h]

/-- Witness for C5: the full-circle instance `generateArc(50, 50, 50, 0,
360)` has sweep flag `'1'` and its final x-coordinate is the un-nudged
cartesian point minus 0.01. -/
theorem c5_generateArc_flags_witness :
    (generateArc zeroFun zeroFun 0 50 50 50 0 360).sweepFlag = '1' ∧
    (generateArc zeroFun zeroFun 0 50 50 50 0 360).endX =
      (polarToCartesian zeroFun zeroFun 0 50 50 50 0).1 - 1 / 100 :=
  ⟨(c5_generateArc_flags zeroFun zeroFun 0 50 50 50 0 360).2.1.mpr rfl,
   (c5_generateArc_flags zeroFun zeroFun 0 50 50 50 0 360).2.2.1 rfl⟩

/-- C8: `getTimeTilAvailable` renders `"<days> day(s) and <hours> hour(s)"`
with `days = floor(numBlocks / 144)` (Euclidean division by the positive
144 is floor division) and `hours = floor((numBlocks % 144) / 6)` where `%`
is the JavaScript truncated remainder, singular forms exactly at 1; it
fails with `InvalidInput` on non-integers; `getTimeTilAvailable 150` is
`"1 day and 1 hour"`. -/
theorem c8_getTimeTilAvailable_spec :
    (∀ n : ℤ, getTimeTilAvailable (n : ℚ) = Except.ok (
        String.mk (intStrChars (n / 144)) ++ spaceSep ++
        (if n / 144 = 1 then dayWord else dayWord ++ plS) ++ andSep ++
        String.mk (intStrChars (Int.tmod n 144 / 6)) ++ spaceSep ++
        (if Int.tmod n 144 / 6 = 1 then hourWord else hourWord ++ plS))) ∧
    (∀ q : ℚ, isJsInt q = false →
        getTimeTilAvailable q = Except.error JsErr.invalidInput) ∧
    getTimeTilAvailable 150 = Except.ok oneDayOneHour := by
  refine ⟨?_, ?_, by decide⟩
  · intro n
    have hint : isJsInt ((n : ℚ)) = true := by
      simp [isJsInt]
    have hdays : ⌊(n : ℚ) / (24 * 6)⌋ = n / 144 := by
      rw [show ((24 * 6 : ℚ)) = ((144 : ℕ) : ℚ) by norm_num,
        Rat.floor_intCast_div_natCast]
      norm_num
    have hrem : jsRemQ (n : ℚ) (24 * 6) = ((Int.tmod n 144 : ℤ) : ℚ) := by
      rw [show ((24 * 6 : ℚ)) = ((144 : ℕ) : ℚ) by norm_num, jsRemQ_intCast]
      norm_num
    have hhours : ⌊jsRemQ (n : ℚ) (24 * 6) / 6⌋ = Int.tmod n 144 / 6 := by
      rw [hrem, show ((6 : ℚ)) = ((6 : ℕ) : ℚ) by norm_num,
        Rat.floor_intCast_div_natCast]
      norm_num
    unfold getTimeTilAvailable
    rw [hint]
    show Except.ok _ = _
    rw [hdays, hhours]
  · intro q hq
    unfold getTimeTilAvailable
    rw [hq]
    rfl

/-- Witness for C8: the general formula evaluated at -150 blocks gives
`"-2 days and -1 hours"` (JavaScript remainder semantics). -/
theorem c8_getTimeTilAvailable_spec_witness :
    getTimeTilAvailable ((-150 : ℤ) : ℚ) = Except.ok (
      String.mk (intStrChars ((-150 : ℤ) / 144)) ++ spaceSep ++
      (if (-150 : ℤ) / 144 = 1 then dayWord else dayWord ++ plS) ++ andSep ++
      String.mk (intStrChars (Int.tmod (-150 : ℤ) 144 / 6)) ++ spaceSep ++
      (if Int.tmod (-150 : ℤ) 144 / 6 = 1 then hourWord else hourWord ++ plS)) :=
  c8_getTimeTilAvailable_spec.1 (-150)

theorem formatNumber_of_nan {v : JsVal} (hv : jsToNumber v = JsNum.nan) :
    formatNumber v = formatNumber (JsVal.num (JsNum.fin 0)) := by
  unfold formatNumber
  rw [hv]
  simp [jsToNumber]

theorem formatFiat_of_nan {v : JsVal} (c : String)
    (hv : jsToNumber v = JsNum.nan) :
    formatFiat v c = formatFiat (JsVal.num (JsNum.fin 0)) c := by
  unfold formatFiat
  rw [hv]
  simp [jsToNumber]

/-- C9: `formatNumber` and `formatFiat` are total functions of their model
input; an input whose numeric coercion is NaN is formatted exactly like 0 —
in particular `formatNumber("abc")` equals `formatNumber(0)`. -/
theorem c9_format_nan_spec :
    (∀ v : JsVal, jsToNumber v = JsNum.nan →
        formatNumber v = formatNumber (JsVal.num (JsNum.fin 0))) ∧
    (∀ (v : JsVal) (c : String), jsToNumber v = JsNum.nan →
        formatFiat v c = formatFiat (JsVal.num (JsNum.fin 0)) c) ∧
    formatNumber (JsVal.str abcStr) = formatNumber (JsVal.num (JsNum.fin 0)) :=
  ⟨fun _ hv => formatNumber_of_nan hv,
   fun _ c hv => formatFiat_of_nan c hv,
   formatNumber_of_nan (by decide)⟩

/-- Witness for C9: the numeric coercion of `"abc"` is NaN and its
formatting equals the formatting of 0. -/
theorem c9_format_nan_spec_witness :
    formatFiat (JsVal.str abcStr) usdStr =
      formatFiat (JsVal.num (JsNum.fin 0)) usdStr :=
  c9_format_nan_spec.2.1 (JsVal.str abcStr) usdStr (by decide)

/-- C6: for a finite value strictly between 0 and 1 in magnitude whose
currency rendering matches `/0[,.]0{2}/` (an all-zero display such as
`"$0.00"`), `formatFiat` renders `"< $0.01"` for positive values and
`"< -$0.01"` for negative ones. -/
theorem c6_formatFiat_small (q : ℚ) (h1 : 0 < |q|) (h2 : |q| < 1)
    (h3 : test00 (intlCurrency usdStr (JsNum.fin q)) = true) :
    formatFiat (JsVal.num (JsNum.fin q)) usdStr =
      if 0 < q then ltPosStr else ltNegStr := by
  have hne : (JsNum.fin q = JsNum.nan) = False := by simp
  unfold formatFiat
  simp only [jsToNumber, hne, if_false]
  rcases lt_trichotomy q 0 with hq | hq | hq
  · have hgt : JsNum.gtQ (JsNum.fin q) 0 = false := by
      simp only [JsNum.gtQ, decide_eq_false_iff_not]
      linarith
    have habs1 : JsNum.ltQ (JsNum.abs (JsNum.fin q)) 1 = true := by
      simp only [JsNum.abs, JsNum.ltQ, decide_eq_true_eq]
      exact h2
    have habs2 : JsNum.gtQ (JsNum.abs (JsNum.fin q)) 0 = true := by
      simp only [JsNum.abs, JsNum.gtQ, decide_eq_true_eq]
      exact h1
    rw [if_neg (by simp [hgt]), if_pos (by simp [habs1, habs2, h3])]
    rw [if_neg (by linarith : ¬0 < q)]
    decide
  · subst hq
    simp at h1
  · have hlt : JsNum.ltQ (JsNum.fin q) 1 = true := by
      simp only [JsNum.ltQ, decide_eq_true_eq]
      rw [abs_of_pos hq] at h2
      exact h2
    have hgt : JsNum.gtQ (JsNum.fin q) 0 = true := by
      simp only [JsNum.gtQ, decide_eq_true_eq]
      exact hq
    rw [if_pos (by simp [hlt, hgt, h3]), if_pos hq]
    decide

/-- Witness for C6: `formatFiat(0.001, 'usd')` renders `"< $0.01"`. -/
theorem c6_formatFiat_small_witness :
    formatFiat (JsVal.num (JsNum.fin (1 / 1000))) usdStr =
      if 0 < (1 / 1000 : ℚ) then ltPosStr else ltNegStr :=
  c6_formatFiat_small (1 / 1000) (by rw [abs_of_pos] <;> norm_num)
    (by rw [abs_of_pos] <;> norm_num) (by decide)

/-- C2: on a pattern-matching string with a finite parse, `toSatoshis`
returns `Math.round(amount * rate * 10^8)` in fiat mode (rate 0 when the
exchange-rate entry is missing) and `Math.round(amount * denominator)` in
unit mode; it raises `InvalidInput` exactly when the string fails the
pattern, the settings object is absent, or `displayFiat` is not boolean;
`toSatoshis("0.0001")` in btc unit mode is 10000. -/
theorem c2_toSatoshis_spec :
    (∀ (a : String) (s : Settings) (q : ℚ),
        decPattern a.data = true → s.displayFiat = some true →
        jsStrToNum a = JsNum.fin q →
        toSatoshis a (some s) = Except.ok (JsNum.fin
          ((jsRound (q * (s.exchangeRate s.fiat).getD 0 *
            (btcDenominator : ℚ)) : ℤ) : ℚ))) ∧
    (∀ (a : String) (s : Settings) (d : ℕ) (q : ℚ),
        decPattern a.data = true → s.displayFiat = some false →
        UNITS s.unit = some d → jsStrToNum a = JsNum.fin q →
        toSatoshis a (some s) =
          Except.ok (JsNum.fin ((jsRound (q * (d : ℚ)) : ℤ) : ℚ))) ∧
    (∀ (a : String) (s : Option Settings),
        toSatoshis a s = Except.error JsErr.invalidInput ↔
          (decPattern a.data = false ∨ s = none ∨
            ∃ st, s = some st ∧ st.displayFiat = none)) ∧
    toSatoshis amount00001 (some btcSettings) = Except.ok (JsNum.fin 10000) := by
  refine ⟨?_, ?_, ?_, by decide⟩
  · intro a s q hpat hdf hq
    unfold toSatoshis
    simp only [hpat, Bool.not_true, Bool.false_eq_true, if_false]
    rw [hdf, hq]
    rfl
  · intro a s d q hpat hdf hu hq
    unfold toSatoshis
    simp only [hpat, Bool.not_true, Bool.false_eq_true, if_false]
    rw [hdf, hu, hq]
    rfl
  · intro a s
    cases hd : decPattern a.data with
    | false =>
      refine iff_of_true ?_ (Or.inl rfl)
      unfold toSatoshis
      simp [hd]
    | true =>
      cases s with
      | none =>
        refine iff_of_true ?_ (Or.inr (Or.inl rfl))
        unfold toSatoshis
        simp [hd]
      | some st =>
        cases hdf : st.displayFiat with
        | none =>
          refine iff_of_true ?_ (Or.inr (Or.inr ⟨st, rfl, hdf⟩))
          unfold toSatoshis
          simp only [hd, Bool.not_true, Bool.false_eq_true, if_false]
          rw [hdf]
        | some b =>
          refine iff_of_false ?_ ?_
          · unfold toSatoshis
            simp only [hd, Bool.not_true, Bool.false_eq_true, if_false]
            rw [hdf]
            cases b with
            | true => simp
            | false =>
              cases hu : UNITS st.unit with
              | none => simp
              | some d => simp
          · intro hcon
            rcases hcon with h | h | ⟨st2, hst2, hdf2⟩
            · cases h
            · cases h
            · rw [Option.some_inj] at hst2
              rw [← hst2] at hdf2
              rw [hdf] at hdf2
              cases hdf2

/-- Witness for C2: `toSatoshis("2")` in btc unit mode rounds
`2 * 10^8`. -/
theorem c2_toSatoshis_spec_witness :
    toSatoshis twoStr (some btcSettings) =
      Except.ok (JsNum.fin ((jsRound (2 * (btcDenominator : ℚ)) : ℤ) : ℚ)) :=
  c2_toSatoshis_spec.2.1 twoStr btcSettings btcDenominator 2 (by decide) rfl
    (by decide) (by decide)

/-- C10: the strings `""` and `"."` both pass the accepted decimal pattern,
so `toSatoshis` does not raise on them: in unit mode with a valid unit,
`""` yields 0 while `"."` yields NaN rather than an integer or an
`InvalidInput` error. -/
theorem c10_toSatoshis_degenerate :
    (∀ (s : Settings) (d : ℕ), s.displayFiat = some false →
        UNITS s.unit = some d →
        toSatoshis emptyStr (some s) = Except.ok (JsNum.fin 0) ∧
        toSatoshis dotStr (some s) = Except.ok JsNum.nan) ∧
    decPattern emptyStr.data = true ∧ decPattern dotStr.data = true := by
  refine ⟨?_, by decide, by decide⟩
  intro s d hdf hu
  constructor
  · unfold toSatoshis
    simp only [show decPattern emptyStr.data = true from by decide,
      Bool.not_true, Bool.false_eq_true, if_false]
    rw [hdf, hu, show jsStrToNum emptyStr = JsNum.fin 0 from by decide]
    show Except.ok (JsNum.fin ((jsRound (0 * (d : ℚ)) : ℤ) : ℚ)) = _
    rw [zero_mul]
    norm_num [jsRound]
  · unfold toSatoshis
    simp only [show decPattern dotStr.data = true from by decide,
      Bool.not_true, Bool.false_eq_true, if_false]
    rw [hdf, hu, show jsStrToNum dotStr = JsNum.nan from by decide]
    rfl

/-- Witness for C10: the degenerate parses in btc unit mode. -/
theorem c10_toSatoshis_degenerate_witness :
    toSatoshis emptyStr (some btcSettings) = Except.ok (JsNum.fin 0) ∧
    toSatoshis dotStr (some btcSettings) = Except.ok JsNum.nan :=
  c10_toSatoshis_degenerate.1 btcSettings btcDenominator rfl (by decide)

theorem jsDiv_fin_of_ne {a b : ℚ} (hb : b ≠ 0) :
    (JsNum.fin a).div (JsNum.fin b) = JsNum.fin (a / b) := by
  show (if b = 0 then _ else JsNum.fin (a / b)) = _
  rw [if_neg hb]

theorem jsDiv_fin_zero (a : ℚ) :
    (JsNum.fin a).div (JsNum.fin 0) =
      (if a = 0 then JsNum.nan
       else if 0 < a then JsNum.inf else JsNum.ninf) := by
  show (if (0 : ℚ) = 0
    then (if a = 0 then JsNum.nan
      else if 0 < a then JsNum.inf else JsNum.ninf)
    else JsNum.fin (a / 0)) = _
  rw [if_pos rfl]

theorem jsDiv_inf_nonneg {b : ℚ} (hb : 0 ≤ b) :
    JsNum.inf.div (JsNum.fin b) = JsNum.inf := by
  show (if 0 ≤ b then JsNum.inf else JsNum.ninf) = _
  rw [if_pos hb]

theorem jsDiv_ninf_nonneg {b : ℚ} (hb : 0 ≤ b) :
    JsNum.ninf.div (JsNum.fin b) = JsNum.ninf := by
  show (if 0 ≤ b then JsNum.ninf else JsNum.inf) = _
  rw [if_pos hb]

/-- C7 counterexample: on an absent settings object with integer satoshis,
`calculateExchangeRate` performs `settings.displayFiat` on `undefined` and
so fails with a TypeError, not with `InvalidInput` as the claim states. -/
theorem c7_counterexample :
    calculateExchangeRate 5 none = Except.error JsErr.typeError ∧
      JsErr.typeError ≠ JsErr.invalidInput := by
  constructor
  · decide
  · decide

/-- C7 (amended): for integer satoshis and a present settings object with
boolean `displayFiat`, `calculateExchangeRate` returns the quotient
`satoshis / rate / 10^8`; a missing (or zero) exchange-rate entry is
substituted by 0 so the result degenerates to `Infinity`, `-Infinity` or
NaN rather than crashing; it fails with `InvalidInput` when satoshis is not
an integer or when `displayFiat` is not boolean; an absent settings object
is a TypeError instead. -/
theorem c7_calculateExchangeRate_spec :
    (∀ (n : ℤ) (s : Settings) (b : Bool) (r : ℚ), s.displayFiat = some b →
        (s.exchangeRate s.fiat).getD 0 = r → r ≠ 0 →
        calculateExchangeRate (n : ℚ) (some s) =
          Except.ok (JsNum.fin ((n : ℚ) / r / (btcDenominator : ℚ)))) ∧
    (∀ (n : ℤ) (s : Settings) (b : Bool), s.displayFiat = some b →
        (s.exchangeRate s.fiat).getD 0 = 0 →
        calculateExchangeRate (n : ℚ) (some s) = Except.ok
          (if (n : ℚ) = 0 then JsNum.nan
           else if 0 < (n : ℚ) then JsNum.inf else JsNum.ninf)) ∧
    (∀ (q : ℚ) (s : Option Settings), isJsInt q = false →
        calculateExchangeRate q s = Except.error JsErr.invalidInput) ∧
    (∀ (n : ℤ) (st : Settings), st.displayFiat = none →
        calculateExchangeRate (n : ℚ) (some st) =
          Except.error JsErr.invalidInput) ∧
    (∀ n : ℤ, calculateExchangeRate (n : ℚ) none =
        Except.error JsErr.typeError) := by
  have hint : ∀ n : ℤ, isJsInt ((n : ℚ)) = true := by
    intro n
    simp [isJsInt]
  have hbpos : (0 : ℚ) ≤ ((btcDenominator : ℕ) : ℚ) := by positivity
  have hbne : ((btcDenominator : ℕ) : ℚ) ≠ 0 := by norm_num [btcDenominator]
  refine ⟨?_, ?_, ?_, ?_, ?_⟩
  · intro n s b r hdf hr hrne
    unfold calculateExchangeRate
    simp only [hint n, Bool.not_true, Bool.false_eq_true, if_false]
    rw [hdf]
    show Except.ok (((JsNum.fin (n : ℚ)).div
      (JsNum.fin ((s.exchangeRate s.fiat).getD 0))).div
      (JsNum.fin (btcDenominator : ℚ))) = _
    rw [hr, jsDiv_fin_of_ne hrne, jsDiv_fin_of_ne hbne]
  · intro n s b hdf hr
    unfold calculateExchangeRate
    simp only [hint n, Bool.not_true, Bool.false_eq_true, if_false]
    rw [hdf]
    show Except.ok (((JsNum.fin (n : ℚ)).div
      (JsNum.fin ((s.exchangeRate s.fiat).getD 0))).div
      (JsNum.fin (btcDenominator : ℚ))) = _
    rw [hr, jsDiv_fin_zero]
    rcases eq_or_ne ((n : ℚ)) 0 with hn | hn
    · rw [if_pos hn]
      rfl
    · rw [if_neg hn]
      rcases lt_or_gt_of_ne hn with hlt | hgt
      · rw [if_neg (by linarith : ¬(0 : ℚ) < (n : ℚ)), jsDiv_ninf_nonneg hbpos]
      · rw [if_pos hgt, jsDiv_inf_nonneg hbpos]
  · intro q s hq
    unfold calculateExchangeRate
    rw [hq]
    rfl
  · intro n st hdf
    unfold calculateExchangeRate
    simp only [hint n, Bool.not_true, Bool.false_eq_true, if_false]
    rw [hdf]
  · intro n
    unfold calculateExchangeRate
    simp only [hint n, Bool.not_true, Bool.false_eq_true, if_false]

/-- Witness for C7: 5 satoshis at a usd rate of 4000. -/
theorem c7_calculateExchangeRate_spec_witness :
    calculateExchangeRate ((5 : ℤ) : ℚ) (some usdSettings) =
      Except.ok (JsNum.fin (((5 : ℤ) : ℚ) / 4000 / (btcDenominator : ℚ))) :=
  c7_calculateExchangeRate_spec.1 5 usdSettings true 4000 rfl (by decide)
    (by norm_num)

/-- C1 counterexample: for the negative satoshi count -1 in btc unit mode,
`toAmount` renders `"-0.00000001"`, whose leading minus sign fails the
`^[0-9]*[.]?[0-9]*$` pattern of `toSatoshis`, so the round trip raises
`InvalidInput` instead of returning -1. -/
theorem c1_counterexample :
    (toAmount ((-1 : ℤ) : ℚ) (some btcSettings) 8).bind
        (fun a => toSatoshis a (some btcSettings)) =
      Except.error JsErr.invalidInput ∧
    (Except.error JsErr.invalidInput : Except JsErr JsNum) ≠
      Except.ok (JsNum.fin ((-1 : ℤ) : ℚ)) := by
  constructor
  · decide
  · decide

/-- C1 (amended): for every nonnegative integer satoshi count and every
settings object with `displayFiat = false` whose unit key is present in the
`UNITS` table, `toSatoshis(toAmount(s, settings), settings)` returns `s`:
the unit-mode round trip through the decimal-string representation is the
identity on nonnegative integer satoshi counts (negative counts raise
`InvalidInput`, since the rendered minus sign fails the input pattern). -/
theorem c1_roundtrip (s : ℤ) (hs : 0 ≤ s) (st : Settings) (d : ℕ)
    (hdf : st.displayFiat = some false) (hu : UNITS st.unit = some d) :
    (toAmount (s : ℚ) (some st) 8).bind (fun a => toSatoshis a (some st)) =
      Except.ok (JsNum.fin (s : ℚ)) := by
  have hd : d = btcDenominator := by
    unfold UNITS at hu
    by_cases hbu : st.unit = btcStr
    · rw [if_pos hbu] at hu
      exact (Option.some_inj.mp hu).symm
    · rw [if_neg hbu] at hu
      cases hu
  obtain ⟨n, rfl⟩ : ∃ n : ℕ, s = (n : ℤ) := ⟨s.toNat, (Int.toNat_of_nonneg hs).symm⟩
  subst hd
  have hint : isJsInt (((n : ℤ) : ℚ)) = true := by simp [isJsInt]
  have hcast : (((n : ℤ) : ℚ)) = ((n : ℕ) : ℚ) := by push_cast; ring
  have hbq : ((btcDenominator : ℕ) : ℚ) = 10 ^ (8 : ℕ) := by
    norm_num [btcDenominator]
  have h8ne : ((10 : ℚ) ^ (8 : ℕ)) ≠ 0 := by norm_num
  obtain ⟨hpat, hparse⟩ := format_parse_nat n
  have hq0 : ¬((n : ℚ) / 10 ^ (8 : ℕ) < 0) := by
    push_neg
    positivity
  unfold toAmount
  simp only [hint, Bool.not_true, Bool.false_eq_true, if_false]
  rw [hdf, hu]
  show Except.bind (Except.ok (String.mk (renderJsNum false 0 8
      (JsNum.fin (((n : ℤ) : ℚ) / ((btcDenominator : ℕ) : ℚ))))))
      (fun a => toSatoshis a (some st)) =
    Except.ok (JsNum.fin (((n : ℕ) : ℤ) : ℚ))
  rw [hcast, hbq]
  rw [show renderJsNum false 0 8 (JsNum.fin ((n : ℚ) / 10 ^ (8 : ℕ))) =
      formatFixedNN false ((n : ℚ) / 10 ^ (8 : ℕ)) 0 8 from by
    show formatFixed false ((n : ℚ) / 10 ^ (8 : ℕ)) 0 8 = _
    unfold formatFixed
    rw [if_neg hq0]]
  show toSatoshis (String.mk (formatFixedNN false ((n : ℚ) / 10 ^ (8 : ℕ)) 0 8))
    (some st) = _
  unfold toSatoshis
  simp only [hpat, Bool.not_true, Bool.false_eq_true, if_false]
  rw [hdf, hu]
  rw [show jsStrToNum (String.mk (formatFixedNN false
      ((n : ℚ) / 10 ^ (8 : ℕ)) 0 8)) = jsCharsToNum (formatFixedNN false
      ((n : ℚ) / 10 ^ (8 : ℕ)) 0 8) from rfl, hparse]
  show Except.ok (JsNum.fin ((jsRound ((n : ℚ) / 10 ^ (8 : ℕ) *
    (btcDenominator : ℚ)) : ℤ) : ℚ)) = _
  rw [hbq, div_mul_cancel₀ _ h8ne]
  unfold jsRound
  rw [Int.floor_nat_add n ((1 : ℚ) / 2),
    show ⌊(1 : ℚ) / 2⌋ = 0 from by norm_num, Int.add_zero, hcast]

/-- Witness for C1: the round trip at 12345 satoshis in btc unit mode. -/
theorem c1_roundtrip_witness :
    (toAmount ((12345 : ℤ) : ℚ) (some btcSettings) 8).bind
        (fun a => toSatoshis a (some btcSettings)) =
      Except.ok (JsNum.fin ((12345 : ℤ) : ℚ)) :=
  c1_roundtrip 12345 (by norm_num) btcSettings btcDenominator rfl (by decide)

end Helper
